import Mathlib

/-!
Verification of the session/eviction engine and conversation buffer of the
ollyio discord bot (src/bot.py, src/chatbot.py), as a shallow embedding.

Timestamps are modelled as `Int` (the source uses `round(time.time())`,
an arbitrary-precision integer in Python). The generative backend is
modelled as an oracle argument with three outcomes, matching the three
ways `requests.post` can go in the source: a completed 200 response, a
completed non-success status, and a transport failure, which in the
source raises an exception that no caller catches.
-/

namespace Ollyio

/-- `Member` from src/bot.py: per-participant activity/deadline record. -/
structure Member where
  name : String
  start_time : Int
  max_time : Int
  end_time : Int
deriving DecidableEq

/-- `Member.__init__(name)`: `start_time = now`, `max_time = 600`,
`end_time = max_time + start_time`. -/
def Member.create (name : String) (now : Int) : Member :=
  { name := name, start_time := now, max_time := 600, end_time := 600 + now }

/-- `Member.set_start_time`: sets `start_time` to the current time. -/
def Member.set_start_time (m : Member) (now : Int) : Member :=
  { m with start_time := now }

/-- `Member.set_end_time`: `remainder = end_time - start_time`;
`start_time = end_time`; `end_time = (start_time + max_time) - remainder`
(with `start_time` already updated to the old `end_time`). -/
def Member.set_end_time (m : Member) : Member :=
  { m with
    start_time := m.end_time,
    end_time := (m.end_time + m.max_time) - (m.end_time - m.start_time) }

/-- `Member.get_time`: time left before kick, `end_time - start_time`. -/
def Member.get_time (m : Member) : Int :=
  m.end_time - m.start_time

/-- `Member.check_time`: `start_time < end_time`. -/
def Member.check_time (m : Member) : Bool :=
  m.start_time < m.end_time

/-- `ManageMembers` from src/bot.py: the session table. -/
structure ManageMembers where
  conversation_members : List Member
  member_limit : Nat
deriving DecidableEq

/-- `ManageMembers.__init__`: empty member list, `member_limit = 5`. -/
def ManageMembers.init : ManageMembers :=
  { conversation_members := [], member_limit := 5 }

/-- `ManageMembers.find_member`: linear scan for a member with this name. -/
def ManageMembers.find_member (t : ManageMembers) (member_name : String) : Bool :=
  t.conversation_members.any (fun m => m.name == member_name)

/-- `ManageMembers.add_member`: appends when `len < member_limit` and
returns whether the member was added. -/
def ManageMembers.add_member (t : ManageMembers) (m : Member) :
    ManageMembers × Bool :=
  if t.conversation_members.length < t.member_limit then
    ({ t with conversation_members := t.conversation_members ++ [m] }, true)
  else
    (t, false)

/-- `ManageMembers.remove_member`: in the source the `return True` sits at
loop-body level (inside the `for`, outside the `if`), so the first loop
iteration always returns: a nonempty table yields `True` regardless of a
match, and only a match at the head is actually removed; an empty table
yields `False`. -/
def ManageMembers.remove_member (t : ManageMembers) (member_name : String) :
    ManageMembers × Bool :=
  match t.conversation_members with
  | [] => (t, false)
  | m :: rest =>
      if m.name == member_name then
        ({ t with conversation_members := rest }, true)
      else
        (t, true)

/-- `ManageMembers.get_space`: number of members in the conversation. -/
def ManageMembers.get_space (t : ManageMembers) : Nat :=
  t.conversation_members.length

inductive Rejected where
  | AlreadyMember
  | Full
deriving DecidableEq

inductive AdmitResult where
  | ok (t : ManageMembers)
  | rejected (r : Rejected)
deriving DecidableEq

/-- `PublicCommands.join_conversation` (table-level part): reject when
`find_member` succeeds, otherwise construct `Member(user_name)` and call
`add_member`, rejecting as full when that returns `False`. -/
def join_conversation (t : ManageMembers) (user_name : String) (now : Int) :
    AdmitResult :=
  if t.find_member user_name then
    .rejected .AlreadyMember
  else
    let res := t.add_member (Member.create user_name now)
    if res.2 then .ok res.1 else .rejected .Full

/-- The body of the `for member in self.members.conversation_members` loop of
`BackgroundTasks.check_members`, with Python's list-iterator semantics made
explicit: `acc` holds the elements before the iterator's cursor, the third
argument the elements from the cursor on. Each visited member first has its
`start_time` advanced to `now`; if `check_time()` holds the whole function
returns (the rest of the list is never examined); otherwise
`list.remove(member)` deletes the element under the cursor, which shifts the
following element under the already-advanced cursor, so that element is kept
without ever being examined. -/
def checkLoop (now : Int) (acc : List Member) : List Member → List Member
  | [] => acc
  | m :: rest =>
      let m' := m.set_start_time now
      if m'.check_time then
        acc ++ m' :: rest
      else
        match rest with
        | [] => acc
        | skipped :: rest' => checkLoop now (acc ++ [skipped]) rest'

/-- `BackgroundTasks.check_members`: the reaper tick. A no-op when the table
is empty; otherwise runs the scan loop above over the live member list. -/
def ManageMembers.check_members (t : ManageMembers) (now : Int) : ManageMembers :=
  if t.get_space = 0 then t
  else { t with conversation_members := checkLoop now [] t.conversation_members }

/-- `ChatBot.conversation_length = 31` from src/chatbot.py. -/
def conversation_length : Nat := 31

/-- The three outcomes of the `requests.post` call in
`ChatBot.generate_response`: a completed response with status 200 carrying
text, a completed response with any other status, or a transport failure,
which raises an exception. -/
inductive ServiceOutcome where
  | status200 (resp : String)
  | statusOther
  | transportError
deriving DecidableEq

/-- How `ChatBot.generate_response` ends: a normal return carrying text, or
an uncaught exception propagating out of the function. -/
inductive GenResult where
  | returned (text : String)
  | raised
deriving DecidableEq

/-- `ChatBot.generate_response`: appends the prompt to the history, then
posts the flattened history to the backend. On a 200 status it appends the
response and deletes index 1 when `len(history) >= conversation_length`; on
a completed non-success status it returns the placeholder "(No Response)"
without touching the history further; on a transport failure `requests.post`
raises an exception that the function (and no caller) catches, so the
exception propagates with the history already grown by the prompt. The
backend outcome is the oracle argument `svc`. Returns the new history and
how the call ended. -/
def generate_response (history : List String) (prompt : String)
    (svc : ServiceOutcome) : List String × GenResult :=
  let h1 := history ++ [prompt]
  match svc with
  | .status200 resp =>
      let h2 := h1 ++ [resp]
      let h3 := if conversation_length ≤ h2.length then h2.eraseIdx 1 else h2
      (h3, .returned resp)
  | .statusOther => (h1, .returned "(No Response)")
  | .transportError => (h1, .raised)

/-- `text_limit = 2000` from `BotMain.on_message`. -/
def text_limit : Nat := 2000

/-- The chunking list comprehension of `BotMain.on_message`:
`[response[i : i + text_limit] for i in range(0, len(response), text_limit)]`,
as successive take/drop slices (texts modelled as `List Char`). -/
def parse_response (limit : Nat) (s : List Char) : List (List Char) :=
  if s = [] ∨ limit = 0 then []
  else s.take limit :: parse_response limit (s.drop limit)
termination_by s.length
decreasing_by
  rename_i h
  push_neg at h
  have h1 : s ≠ [] := h.1
  have h2 : limit ≠ 0 := h.2
  have : 0 < s.length := List.length_pos.mpr h1
  simp only [List.length_drop]
  omega

/-- The delivery step of `BotMain.on_message`: a response longer than
`text_limit` is split into chunks, otherwise sent whole. -/
def delivered_chunks (s : List Char) : List (List Char) :=
  if text_limit < s.length then parse_response text_limit s else [s]

/-- The table-mutating operations reachable from the handlers and the reaper:
join-conversation, leave-conversation, and a reaper tick. -/
inductive Op where
  | join (user_name : String) (now : Int)
  | leave (user_name : String)
  | tick (now : Int)

def applyOp (t : ManageMembers) : Op → ManageMembers
  | .join user_name now =>
      match join_conversation t user_name now with
      | .ok t' => t'
      | .rejected _ => t
  | .leave user_name => (t.remove_member user_name).1
  | .tick now => t.check_members now

/-- The table state after a sequence of operations, starting from
`ManageMembers.__init__`. -/
def runOps (ops : List Op) : ManageMembers :=
  ops.foldl applyOp ManageMembers.init

/-- One successful prompt/response exchange against the history, with fixed
texts (the lengths are all that matters for the capacity question). -/
def exchange (history : List String) : List String :=
  (generate_response history "p" (.status200 "r")).1

/-- The history after `n` successful exchanges starting from the fresh
`ChatBot` history `[commands + instructions]` (a single pinned entry). -/
def iterExchange : Nat → List String
  | 0 => ["SYS"]
  | n + 1 => exchange (iterExchange n)

/-- C3: `set_end_time` sets `lastActivityAt` (start_time) to the old deadline
and the new deadline to `lastActivityAt + ttl - remaining`, with
`remaining = deadline - lastActivityAt` taken from the pre-touch state; hence
after every touch `deadline == lastActivityAt + ttl - remaining` holds. -/
theorem C3_touch_slack (m : Member) :
    (m.set_end_time).start_time = m.end_time ∧
    (m.set_end_time).end_time =
      (m.set_end_time).start_time + m.max_time - (m.end_time - m.start_time) := by
  exact ⟨rfl, rfl⟩

/-- C1: the reaper tick does not evict exactly the expired entries. First
input: at time 50 the scan hits live member a (end 100) first, returns, and
expired member b (end 5) survives with the table size unchanged. Second
input: both c and d are expired (end 5), yet removing c shifts d under the
iterator cursor and d survives unexamined. -/
theorem C1_reaper_eval :
    ManageMembers.check_members
        ⟨[⟨"a", 0, 600, 100⟩, ⟨"b", 0, 600, 5⟩], 5⟩ 50 =
      ⟨[⟨"a", 50, 600, 100⟩, ⟨"b", 0, 600, 5⟩], 5⟩ ∧
    Member.check_time (Member.set_start_time ⟨"b", 0, 600, 5⟩ 50) = false ∧
    ManageMembers.check_members
        ⟨[⟨"c", 0, 600, 5⟩, ⟨"d", 0, 600, 5⟩], 5⟩ 50 =
      ⟨[⟨"d", 0, 600, 5⟩], 5⟩ ∧
    Member.check_time (Member.set_start_time ⟨"d", 0, 600, 5⟩ 50) = false := by
  decide

/-- C2: 17 consecutive successful exchanges starting from a fresh history of
one pinned entry leave the history at length 32, exceeding the configured
`conversation_length = 31`: each exchange appends two turns but removes at
most one. The pinned entry is still at index 0. -/
theorem C2_capacity_eval :
    (iterExchange 17).length = 32 ∧
    conversation_length < (iterExchange 17).length ∧
    (iterExchange 17).head? = some "SYS" := by
  decide

/-- C4: `remove_member` of an absent name returns `True` whenever the table is
nonempty: with table `[a]`, removing "b" removes nothing and reports `True`;
with table `[a, b]`, removing "b" leaves both members and reports `True`. The
claimed "returns true exactly when a removal occurred" fails. -/
theorem C4_remove_eval :
    ManageMembers.remove_member ⟨[⟨"a", 0, 600, 600⟩], 5⟩ "b" =
      (⟨[⟨"a", 0, 600, 600⟩], 5⟩, true) ∧
    ManageMembers.remove_member
        ⟨[⟨"a", 0, 600, 600⟩, ⟨"b", 0, 600, 600⟩], 5⟩ "b" =
      (⟨[⟨"a", 0, 600, 600⟩, ⟨"b", 0, 600, 600⟩], 5⟩, true) := by
  decide

/-- C7 counterexample: on a transport failure the call does not return
"(No Response)"; the exception propagates out of `generate_response`
uncaught. -/
theorem C7_transport_eval :
    (generate_response ["SYS"] "p" .transportError).2 = .raised ∧
    ¬(generate_response ["SYS"] "p" .transportError).2 =
        .returned "(No Response)" := by
  decide

/-- C7 (amended): on a completed non-success status `generate_response`
returns the fixed placeholder "(No Response)" and appends no response turn;
on a transport failure the exception propagates instead of a placeholder,
and in that case too no response turn is appended (the history holds exactly
the old turns plus the prompt). -/
theorem C7_failure_paths (history : List String) (prompt : String) :
    (generate_response history prompt .statusOther).2 =
        .returned "(No Response)" ∧
    (generate_response history prompt .statusOther).1 = history ++ [prompt] ∧
    (generate_response history prompt .transportError).2 = .raised ∧
    (generate_response history prompt .transportError).1 =
        history ++ [prompt] :=
  ⟨rfl, rfl, rfl, rfl⟩

/-- C10: the prompt turn is appended before the backend call, so under either
failure mode (completed non-success status, or transport failure whose
exception propagates) the history has grown by exactly the prompt turn (one
entry, at the tail), while the response side of the exchange is absent. -/
theorem C10_prompt_first (history : List String) (prompt : String) :
    (generate_response history prompt .statusOther).1 = history ++ [prompt] ∧
    (generate_response history prompt .transportError).1 =
        history ++ [prompt] ∧
    (generate_response history prompt .statusOther).1.length =
        history.length + 1 ∧
    (generate_response history prompt .transportError).1.length =
        history.length + 1 := by
  refine ⟨rfl, rfl, ?_, ?_⟩ <;> simp [generate_response]

/-- C9 counterexample: a fresh member ("a" admitted at time 0) has
`remaining == ttl`; touching it makes deadline equal lastActivityAt (both
600), but the next reaper tick, at time 60, first advances `start_time` to
60 and then finds `60 < 600`, so the member is NOT evicted at that tick. -/
theorem C9_next_tick_eval :
    Member.get_time (Member.create "a" 0) = (Member.create "a" 0).max_time ∧
    (Member.set_end_time (Member.create "a" 0)).end_time =
      (Member.set_end_time (Member.create "a" 0)).start_time ∧
    ManageMembers.check_members
        ⟨[Member.set_end_time (Member.create "a" 0)], 5⟩ 60 =
      ⟨[⟨"a", 60, 600, 600⟩], 5⟩ ∧
    (ManageMembers.check_members
        ⟨[Member.set_end_time (Member.create "a" 0)], 5⟩ 60).get_space = 1 := by
  decide

/-- C5: admission outcomes. A present id is rejected as `AlreadyMember`; an
absent id against a table at (or beyond) capacity is rejected as `Full`;
otherwise the freshly constructed member is appended. -/
theorem C5_admission (t : ManageMembers) (user_name : String) (now : Int) :
    (t.find_member user_name = true →
      join_conversation t user_name now = .rejected .AlreadyMember) ∧
    (t.find_member user_name = false →
      t.conversation_members.length = t.member_limit →
      join_conversation t user_name now = .rejected .Full) ∧
    (t.find_member user_name = false →
      t.conversation_members.length < t.member_limit →
      join_conversation t user_name now =
        .ok { t with conversation_members :=
                t.conversation_members ++ [Member.create user_name now] }) := by
  refine ⟨?_, ?_, ?_⟩
  · intro h1
    simp [join_conversation, h1]
  · intro h1 h2
    simp [join_conversation, h1, ManageMembers.add_member, h2]
  · intro h1 h2
    simp [join_conversation, h1, ManageMembers.add_member, h2]

theorem C5_admission_witness :
    join_conversation ⟨[⟨"a", 0, 600, 600⟩], 5⟩ "a" 10 =
      .rejected .AlreadyMember ∧
    join_conversation
        ⟨[⟨"a", 0, 600, 600⟩, ⟨"b", 0, 600, 600⟩, ⟨"c", 0, 600, 600⟩,
          ⟨"d", 0, 600, 600⟩, ⟨"e", 0, 600, 600⟩], 5⟩ "f" 10 =
      .rejected .Full ∧
    join_conversation ⟨[], 5⟩ "g" 0 = .ok ⟨[Member.create "g" 0], 5⟩ :=
  ⟨(C5_admission ⟨[⟨"a", 0, 600, 600⟩], 5⟩ "a" 10).1 (by decide),
   (C5_admission
      ⟨[⟨"a", 0, 600, 600⟩, ⟨"b", 0, 600, 600⟩, ⟨"c", 0, 600, 600⟩,
        ⟨"d", 0, 600, 600⟩, ⟨"e", 0, 600, 600⟩], 5⟩ "f" 10).2.1
      (by decide) (by decide),
   (C5_admission ⟨[], 5⟩ "g" 0).2.2 (by decide) (by decide)⟩

theorem checkLoop_length_le (now : Int) :
    ∀ (n : Nat) (l acc : List Member), l.length ≤ n →
      (checkLoop now acc l).length ≤ acc.length + l.length := by
  intro n
  induction n with
  | zero =>
    intro l acc h
    have hl : l = [] := List.length_eq_zero.mp (Nat.le_zero.mp h)
    subst hl
    simp [checkLoop]
  | succ n ih =>
    intro l acc h
    cases l with
    | nil => simp [checkLoop]
    | cons m rest =>
      cases rest with
      | nil =>
        simp only [checkLoop]
        split
        · simp
        · simp
      | cons skipped rest' =>
        simp only [checkLoop]
        split
        · simp
        · have hlen : rest'.length ≤ n := by
            simp only [List.length_cons] at h
            omega
          have hrec := ih rest' (acc ++ [skipped]) hlen
          have h1 : (acc ++ [skipped]).length = acc.length + 1 := by simp
          have h2 : (m :: skipped :: rest').length = rest'.length + 2 := by simp
          omega

theorem join_conversation_ok {t : ManageMembers} {u : String} {now : Int}
    {t' : ManageMembers} (h : join_conversation t u now = .ok t') :
    t.conversation_members.length < t.member_limit ∧
    t' = { t with conversation_members :=
             t.conversation_members ++ [Member.create u now] } := by
  unfold join_conversation ManageMembers.add_member at h
  by_cases hf : t.find_member u
  · simp [hf] at h
  · by_cases hlt : t.conversation_members.length < t.member_limit
    · simp only [hf, if_false, hlt, if_true, Bool.false_eq_true] at h
      simp only [AdmitResult.ok.injEq] at h
      exact ⟨hlt, h.symm⟩
    · simp [hf, hlt] at h

theorem applyOp_preserves (t : ManageMembers) (op : Op)
    (h : t.conversation_members.length ≤ t.member_limit) :
    (applyOp t op).member_limit = t.member_limit ∧
    (applyOp t op).conversation_members.length ≤ t.member_limit := by
  obtain ⟨mems, lim⟩ := t
  replace h : mems.length ≤ lim := h
  show (applyOp ⟨mems, lim⟩ op).member_limit = lim ∧
    (applyOp ⟨mems, lim⟩ op).conversation_members.length ≤ lim
  cases op with
  | join u now =>
    simp only [applyOp]
    cases hj : join_conversation ⟨mems, lim⟩ u now with
    | rejected r => exact ⟨rfl, h⟩
    | ok t' =>
      obtain ⟨hlt, ht⟩ := join_conversation_ok hj
      subst ht
      refine ⟨rfl, ?_⟩
      have : (mems ++ [Member.create u now]).length = mems.length + 1 := by simp
      simp only [this]
      exact hlt
  | leave u =>
    cases mems with
    | nil => exact ⟨rfl, h⟩
    | cons m rest =>
      by_cases hmu : (m.name == u) = true
      · constructor
        · simp [applyOp, ManageMembers.remove_member, hmu]
        · simp only [applyOp, ManageMembers.remove_member, hmu, if_pos]
          show rest.length ≤ lim
          simp only [List.length_cons] at h
          omega
      · constructor
        · simp [applyOp, ManageMembers.remove_member, hmu]
        · simp only [applyOp, ManageMembers.remove_member, hmu, if_neg]
          exact h
  | tick now =>
    simp only [applyOp, ManageMembers.check_members]
    split
    · exact ⟨rfl, h⟩
    · refine ⟨rfl, ?_⟩
      have hcl := checkLoop_length_le now mems.length mems [] le_rfl
      have h0 : ([] : List Member).length = 0 := rfl
      show (checkLoop now [] mems).length ≤ lim
      omega

theorem foldl_applyOp_le :
    ∀ (ops : List Op) (t : ManageMembers),
      t.conversation_members.length ≤ t.member_limit →
      (List.foldl applyOp t ops).conversation_members.length ≤
        t.member_limit := by
  intro ops
  induction ops with
  | nil =>
    intro t h
    simpa using h
  | cons op ops ih =>
    intro t h
    have hstep := applyOp_preserves t op h
    have h2 : (applyOp t op).conversation_members.length ≤
        (applyOp t op).member_limit := hstep.1 ▸ hstep.2
    have := ih (applyOp t op) h2
    rw [hstep.1] at this
    simpa [List.foldl] using this

/-- C6: over every sequence of join, leave and reaper-tick operations starting
from the fresh table, the table size never exceeds the configured
`member_limit = 5`. -/
theorem C6_capacity (ops : List Op) : (runOps ops).get_space ≤ 5 := by
  have := foldl_applyOp_le ops ManageMembers.init (by simp [ManageMembers.init])
  simpa [runOps, ManageMembers.get_space, ManageMembers.init] using this

theorem parse_response_join (limit : Nat) (hl : 0 < limit) :
    ∀ (n : Nat) (s : List Char), s.length ≤ n →
      (parse_response limit s).flatten = s := by
  intro n
  induction n with
  | zero =>
    intro s h
    have hs : s = [] := List.length_eq_zero.mp (Nat.le_zero.mp h)
    subst hs
    rw [parse_response]
    simp
  | succ n ih =>
    intro s h
    rw [parse_response]
    by_cases hs : s = []
    · simp [hs]
    · have hcond : ¬(s = [] ∨ limit = 0) := by
        push_neg
        exact ⟨hs, by omega⟩
      rw [if_neg hcond]
      have hpos : 0 < s.length := List.length_pos.mpr hs
      have hdrop : (s.drop limit).length ≤ n := by
        rw [List.length_drop]
        omega
      rw [List.flatten_cons, ih (s.drop limit) hdrop, List.take_append_drop]

theorem parse_response_chunks (limit : Nat) (hl : 0 < limit) :
    ∀ (n : Nat) (s : List Char), s.length ≤ n →
      ∀ c ∈ parse_response limit s, c ≠ [] ∧ c.length ≤ limit := by
  intro n
  induction n with
  | zero =>
    intro s h c hc
    have hs : s = [] := List.length_eq_zero.mp (Nat.le_zero.mp h)
    subst hs
    rw [parse_response] at hc
    simp at hc
  | succ n ih =>
    intro s h c hc
    rw [parse_response] at hc
    by_cases hs : s = []
    · simp [hs] at hc
    · have hcond : ¬(s = [] ∨ limit = 0) := by
        push_neg
        exact ⟨hs, by omega⟩
      rw [if_neg hcond] at hc
      have hpos : 0 < s.length := List.length_pos.mpr hs
      rcases List.mem_cons.mp hc with h1 | h2
      · subst h1
        constructor
        · intro hemp
          have hzero : (s.take limit).length = 0 := by rw [hemp]; rfl
          rw [List.length_take] at hzero
          omega
        · rw [List.length_take]
          exact Nat.min_le_left _ _
      · have hdrop : (s.drop limit).length ≤ n := by
          rw [List.length_drop]
          omega
        exact ih (s.drop limit) hdrop c h2

/-- C8: a response longer than `text_limit = 2000` is delivered as the
successive `text_limit`-sized slices; each chunk is nonempty and at most
`text_limit` long, and the chunks concatenate, in order, to the full
response. -/
theorem C8_chunking (s : List Char) (h : text_limit < s.length) :
    delivered_chunks s = parse_response text_limit s ∧
    (∀ c ∈ delivered_chunks s, c ≠ [] ∧ c.length ≤ text_limit) ∧
    (delivered_chunks s).flatten = s := by
  have hd : delivered_chunks s = parse_response text_limit s := by
    simp [delivered_chunks, h]
  refine ⟨hd, ?_, ?_⟩
  · rw [hd]
    exact parse_response_chunks text_limit (by norm_num [text_limit])
      s.length s le_rfl
  · rw [hd]
    exact parse_response_join text_limit (by norm_num [text_limit])
      s.length s le_rfl

theorem C8_chunking_witness :
    text_limit < (List.replicate 2001 'a').length ∧
    (delivered_chunks (List.replicate 2001 'a') =
        parse_response text_limit (List.replicate 2001 'a') ∧
      (∀ c ∈ delivered_chunks (List.replicate 2001 'a'),
        c ≠ [] ∧ c.length ≤ text_limit) ∧
      (delivered_chunks (List.replicate 2001 'a')).flatten =
        List.replicate 2001 'a') :=
  ⟨by norm_num [text_limit],
   C8_chunking (List.replicate 2001 'a') (by norm_num [text_limit])⟩

theorem check_members_singleton (x : Member) (now : Int) :
    ManageMembers.check_members ⟨[x], 5⟩ now =
      if now < x.end_time
      then ⟨[⟨x.name, now, x.max_time, x.end_time⟩], 5⟩
      else ⟨[], 5⟩ := by
  by_cases hlt : now < x.end_time
  · rw [if_pos hlt]
    simp [ManageMembers.check_members, ManageMembers.get_space, checkLoop,
      Member.set_start_time, Member.check_time, hlt]
  · rw [if_neg hlt]
    simp [ManageMembers.check_members, ManageMembers.get_space, checkLoop,
      Member.set_start_time, Member.check_time, hlt]

theorem ticks_before_deadline :
    ∀ (ticks : List Int) (x : Member),
      (∀ t ∈ ticks, t < x.end_time) →
      ∃ s : Int,
        ticks.foldl (fun tb t => ManageMembers.check_members tb t) ⟨[x], 5⟩ =
          ⟨[⟨x.name, s, x.max_time, x.end_time⟩], 5⟩ := by
  intro ticks
  induction ticks with
  | nil =>
    intro x _
    exact ⟨x.start_time, rfl⟩
  | cons t ts ih =>
    intro x h
    have ht : t < x.end_time := h t (List.mem_cons_self t ts)
    have h1 : ManageMembers.check_members ⟨[x], 5⟩ t =
        ⟨[⟨x.name, t, x.max_time, x.end_time⟩], 5⟩ := by
      rw [check_members_singleton, if_pos ht]
    have h2 : ∀ u ∈ ts,
        u < (⟨x.name, t, x.max_time, x.end_time⟩ : Member).end_time := by
      intro u hu
      exact h u (List.mem_cons_of_mem t hu)
    obtain ⟨s, hs⟩ := ih ⟨x.name, t, x.max_time, x.end_time⟩ h2
    refine ⟨s, ?_⟩
    simp only [List.foldl_cons]
    rw [h1]
    exact hs

/-- C9 (amended): for every session entry, after a touch `get_time` equals
ttl minus the pre-touch remaining time; touching an entry whose full window
still remains makes the deadline equal `lastActivityAt`, so the window is
already elapsed immediately after the touch. But a reaper tick first
advances the entry's start time to the tick's own time before checking, so
the touched entry survives every tick that runs before its (unchanged)
deadline — only its start time moves — and the first tick at or past the
deadline evicts it. -/
theorem C9_touch_full_window (m : Member) (ticks : List Int) (now : Int) :
    (m.set_end_time).get_time = m.max_time - m.get_time ∧
    (m.get_time = m.max_time →
      (m.set_end_time).end_time = (m.set_end_time).start_time ∧
      (m.set_end_time).check_time = false) ∧
    ((∀ t ∈ ticks, t < (m.set_end_time).end_time) →
      (∃ s : Int,
        ticks.foldl (fun tb t => ManageMembers.check_members tb t)
            ⟨[m.set_end_time], 5⟩ =
          ⟨[⟨m.name, s, m.max_time, (m.set_end_time).end_time⟩], 5⟩) ∧
      ((m.set_end_time).end_time ≤ now →
        (ticks.foldl (fun tb t => ManageMembers.check_members tb t)
            ⟨[m.set_end_time], 5⟩).check_members now = ⟨[], 5⟩)) := by
  obtain ⟨name, st, mx, e⟩ := m
  refine ⟨?_, ?_, ?_⟩
  · show e + mx - (e - st) - e = mx - (e - st)
    omega
  · intro h
    replace h : e - st = mx := h
    constructor
    · show e + mx - (e - st) = e
      omega
    · show Member.check_time ⟨name, e, mx, e + mx - (e - st)⟩ = false
      simp [Member.check_time]
      omega
  · intro hticks
    obtain ⟨s, hs⟩ := ticks_before_deadline ticks
      (Member.set_end_time ⟨name, st, mx, e⟩) hticks
    constructor
    · exact ⟨s, hs⟩
    · intro hnow
      have hnow' : ¬ now < e + mx - (e - st) := by
        have hle : e + mx - (e - st) ≤ now := hnow
        omega
      rw [hs, check_members_singleton]
      split
      · rename_i hlt
        exact absurd hlt hnow'
      · rfl

theorem C9_touch_full_window_witness :
    ((Member.create "a" 0).set_end_time).get_time =
        (Member.create "a" 0).max_time - (Member.create "a" 0).get_time ∧
    (((Member.create "a" 0).set_end_time).end_time =
        ((Member.create "a" 0).set_end_time).start_time ∧
      ((Member.create "a" 0).set_end_time).check_time = false) ∧
    ((∃ s : Int,
        [(60 : Int), 300, 599].foldl
            (fun tb t => ManageMembers.check_members tb t)
            ⟨[(Member.create "a" 0).set_end_time], 5⟩ =
          ⟨[⟨(Member.create "a" 0).name, s, (Member.create "a" 0).max_time,
             ((Member.create "a" 0).set_end_time).end_time⟩], 5⟩) ∧
      ([(60 : Int), 300, 599].foldl
          (fun tb t => ManageMembers.check_members tb t)
          ⟨[(Member.create "a" 0).set_end_time], 5⟩).check_members 600 =
        ⟨[], 5⟩) :=
  ⟨(C9_touch_full_window (Member.create "a" 0) [60, 300, 599] 600).1,
   (C9_touch_full_window (Member.create "a" 0) [60, 300, 599] 600).2.1
     (by decide),
   ⟨((C9_touch_full_window (Member.create "a" 0) [60, 300, 599] 600).2.2
       (by decide)).1,
    ((C9_touch_full_window (Member.create "a" 0) [60, 300, 599] 600).2.2
       (by decide)).2 (by decide)⟩⟩

end Ollyio
